import Mathlib

/-!
Verification of the GWP in-process call-tree profiler (profile.h / profile.c,
GWP 1.2). The C sources are shallowly embedded: `double` arithmetic is
modelled by exact rationals, `long long` by `Int`, fixed C arrays indexed by
`int` by total functions updated pointwise, and every `PROFILE_BUG(...)`
process abort by an `Except` error value. The clock readings taken by the
`counter` calls inside the BEGIN_BLOCK and END_BLOCK macros are inputs of
each transition (an `EnterObs` or `ExitObs` record), since the clock is an
external collaborator.
-/

set_option autoImplicit false

/-- PROFILE_INVALID from profile.h. -/
def PROFILE_INVALID : Int := -1

/-- THREAD_MAX from profile.h. -/
def THREAD_MAX : Nat := 16

/-- RECURSE_MAX from profile.h. -/
def RECURSE_MAX : Nat := 100

/-- NAME_MAX from profile.c. -/
def NAME_MAX : Nat := 32

/-- BLOCK_MAX from profile.c. -/
def BLOCK_MAX : Nat := 100

/-- STACK_MAX from profile.c. -/
def STACK_MAX : Nat := 100

/-- MANGLE_MAX from profile.c. -/
def MANGLE_MAX : Nat := 256

/-- NCALIBRATION from profile.c: number of fresh overhead samples taken by
each `counter_correction` call. -/
def NCALIBRATION : Nat := 2

/-- The counter frequency set by `init_profile`: `frequency = 1000000000`. -/
def frequency : ℚ := 1000000000

/-- SECS(X) from profile.c: `((double) (X) / (double) frequency)`. -/
def SECS (x : Int) : ℚ := (x : ℚ) / frequency

/-- The floor of a rational, computed on its normalized numerator and
denominator so that it evaluates inside the kernel. -/
def rat_floor (q : ℚ) : Int := Int.fdiv q.num (q.den : Int)

/-- The C library function `round` (rounding half away from zero), as used on
the `double` running mean. -/
def c_round (q : ℚ) : Int :=
  if 0 ≤ q then rat_floor (q + 1 / 2) else -(rat_floor (-q + 1 / 2))

/-- Function `update_mean_sigma` from profile.c: one step of the online (Welford style)
incremental mean and spread update. Takes the sample index `n`, the sample
`x` and the pair `(mn, sn)` of the running values, and returns the updated
pair. -/
def update_mean_sigma (n : Int) (x : Int) (p : ℚ × ℚ) : ℚ × ℚ :=
  let mnm1 := p.1
  let snm1 := p.2
  let mn := mnm1 + ((x : ℚ) - mnm1) / (n : ℚ)
  (mn, snm1 + ((x : ℚ) - mnm1) * ((x : ℚ) - mn))

/-- The sampling loop of `counter_correction` and `init_profile`:
`for (n = 1; n <= N; ++n) update_mean_sigma(n, sample, &mn, &sn)`, folded
over the list of sample deltas starting at index `n`. -/
def welford_go : Int → ℚ × ℚ → List Int → ℚ × ℚ
  | _, p, [] => p
  | n, p, x :: xs => welford_go (n + 1) (update_mean_sigma n x p) xs

/-- The running mean of a list of overhead samples, as computed by the
`counter_correction` loop (indices starting at 1, accumulators starting
at 0.0). -/
def welford_mean (samples : List Int) : ℚ :=
  (welford_go 1 (0, 0) samples).1

/-- Function `counter_correction` from profile.c. The two fresh overhead samples the C
code takes (each the difference of two back-to-back counter reads) are the
`samples` input; the function folds them into a fresh running mean, rounds
it, subtracts it from `counter_delta`, and clamps a negative result to 0. -/
def counter_correction (samples : List Int) (counter_delta : Int) : Int :=
  let result := c_round (welford_mean samples)
  let result := counter_delta - result
  if result < 0 then 0 else result

/-- The character test in the inner scan loop of `mangle`: the position
breaks the scan when it holds a vowel (`a`, `o`, `u`, `i`, `e`) or an
underscore. -/
def is_mangle_target (c : Char) : Bool :=
  (c = 'a' || c = 'o' || c = 'u' || c = 'i' || c = 'e') || c = '_'

/-- The inner scan loop of `mangle`: starting from the end of the string and
walking left, the index of the first position holding a vowel or an
underscore; `none` when the scan walks past index 0 (the C code then hits
`PROFILE_BUG(n < 0)`). Stated recursively: the rightmost such index. -/
def rightmost_target : List Char → Option Nat
  | [] => none
  | c :: cs =>
    match rightmost_target cs with
    | some n => some (n + 1)
    | none => if is_mangle_target c then some 0 else none

/-- Errors of `mangle`, both `PROFILE_BUG` aborts in the C code. -/
inductive MErr where
  | tooLong
  | noTarget
deriving DecidableEq

theorem rightmost_target_lt {m : List Char} {n : Nat}
    (h : rightmost_target m = some n) : n < m.length := by
  induction m generalizing n with
  | nil => simp [rightmost_target] at h
  | cons c cs ih =>
    simp only [rightmost_target] at h
    cases hcs : rightmost_target cs with
    | some k =>
      rw [hcs] at h
      cases h
      simpa using Nat.succ_lt_succ (ih hcs)
    | none =>
      rw [hcs] at h
      by_cases ht : is_mangle_target c
      · simp [ht] at h
        simp [← h]
      · simp [ht] at h

/-- The outer `while (n >= NAME_MAX)` loop of `mangle`: while the name does
not fit, find the rightmost vowel or underscore and delete it (the C code
shifts the tail left by one). The fuel argument only bounds the iteration
count: every pass deletes one character and the loop exits as soon as the
length drops below NAME_MAX, so starting the fuel at the length of the name
is always sufficient. -/
def mangle_loop_go : Nat → List Char → Except MErr (List Char)
  | 0, _ => .error .noTarget
  | fuel + 1, m =>
    if NAME_MAX ≤ m.length then
      match rightmost_target m with
      | none => .error .noTarget
      | some n => mangle_loop_go fuel (m.eraseIdx n)
    else .ok m

/-- The deletion loop of `mangle`, started with sufficient fuel. -/
def mangle_loop (m : List Char) : Except MErr (List Char) :=
  mangle_loop_go m.length m

/-- Function `mangle` from profile.c: a name shorter than NAME_MAX is copied
unchanged; a longer name must be shorter than MANGLE_MAX and is shortened by
the deletion loop. -/
def mangle (source : List Char) : Except MErr (List Char) :=
  if source.length < NAME_MAX then .ok source
  else if MANGLE_MAX ≤ source.length then .error .tooLong
  else mangle_loop source

/-- Every `PROFILE_BUG(...)` abort of the runtime, one constructor per check
site; `mangleBug` stands for the two aborts inside `mangle` (reached through
`new_block`). -/
inductive PErr where
  | threadMax
  | blockMax
  | stackMax
  | stackUnderflow
  | invocationNegative
  | mangleBug
  | missingBaseline
deriving DecidableEq

/-- Pointwise update of a C array modelled as a total function. -/
def fun_set {α : Type} (f : Int → α) (i : Int) (v : α) : Int → α :=
  fun j => if j = i then v else f j

/-- Pointwise update of a C array modelled as a total function (Nat index). -/
def nfun_set {α : Type} (f : Nat → α) (i : Nat) (v : α) : Nat → α :=
  fun j => if j = i then v else f j

/-- In-place update of the element at index `i` of a list (mutation of one
array slot). Out-of-range indices leave the list unchanged. -/
def list_modify {α : Type} : List α → Nat → (α → α) → List α
  | [], _, _ => []
  | x :: xs, 0, f => f x :: xs
  | x :: xs, n + 1, f => x :: list_modify xs n f

/-- Type `stack_t` from profile.c: one open frame of the call stack. The transient
`stack_count_end` field (always overwritten with `PG.counter_stamp` just
before use) is not stored. -/
structure Frame where
  stack_id : Nat
  stack_time_self : ℚ
  stack_time_total : ℚ
  stack_count_begin : Int
deriving DecidableEq

/-- Type `parent_t` from profile.c. -/
structure ParentEnt where
  parent_active : Bool
  parent_calls : Int
deriving DecidableEq

/-- Type `child_t` from profile.c. -/
structure ChildEnt where
  child_active : Bool
  child_calls : Int
  child_time_total : ℚ
deriving DecidableEq

/-- Type `block_t` from profile.c. `block_site` models the
`block_invocation_pointer` field: it names the call site whose static
recursion counter the pointer aliases. The `block_parent` and `block_child`
BLOCK_MAX-sized arrays are total functions. The `block_child_calls`,
`block_child_time_total`, `block_time_recursive_total` and
`block_calls_recursive_total` fields are scratch space filled in by
`dump_profile`; the model computes them there directly. -/
structure Block where
  block_name : List Char
  block_invocation : Int
  block_site : Nat
  block_calls : Int
  block_time_self_total : ℚ
  block_time_total : ℚ
  block_parent : Nat → ParentEnt
  block_child : Nat → ChildEnt

/-- Type `profile_static_t` from profile.h: the static per-call-site storage each
BEGIN_BLOCK expansion owns. C statics are zero initialized, so the initial
array is all zeros (not PROFILE_INVALID); `init_block` fills the first
RECURSE_MAX entries with PROFILE_INVALID on first use. The array is a total
function on `Int`: a read beyond index RECURSE_MAX - 1 is an out-of-bounds
read in C, which the model renders as reading the function at that index
(still holding its zero-initialized stand-in value). -/
structure SiteState where
  block_id : Int → Int
  block_invocation : Int

/-- Type `profile_local_t` from profile.c plus the per-call-site statics: the
whole per-thread profiler state. The stack list has its top frame first. -/
structure PState where
  stack : List Frame
  blocks : List Block
  sites : Nat → SiteState
  counter_overhead_begin : Int
  counter_overhead_end : Int
  time_total : ℚ

/-- The clock readings consumed during one BEGIN_BLOCK expansion:
`tStamp` is the `counter(&(PG.counter_stamp))` read at macro entry, `s1` and
`s2` the two overhead samples `counter_correction` takes, `tOvh` the
`counter_overhead_begin` read when the stack is empty, and `tBegin` the
final `counter(PG.counter_pointer)` write landing in the field
`stack_count_begin` of the new frame. -/
structure EnterObs where
  tStamp : Int
  s1 : Int
  s2 : Int
  tOvh : Int
  tBegin : Int

/-- The clock readings consumed during one END_BLOCK expansion: `tStamp` at
macro entry, samples `s1`, `s2` for `counter_correction`, `tOvh` the
`counter_overhead_end` read when the stack empties, and `tResume` the final
write landing in the field `stack_count_begin` of the resumed parent frame. -/
structure ExitObs where
  tStamp : Int
  s1 : Int
  s2 : Int
  tOvh : Int
  tResume : Int

/-- The default (zero) adjacency entries written by `clear_block`. -/
def clear_parent : ParentEnt := { parent_active := false, parent_calls := 0 }

/-- The default (zero) child entry written by `clear_block`. -/
def clear_child : ChildEnt :=
  { child_active := false, child_calls := 0, child_time_total := 0 }

/-- The block element at index `i` of the per-thread block table
(`PL.block + i`). Out-of-range access yields a zeroed block. -/
def blockAt (st : PState) (i : Nat) : Block :=
  st.blocks.getD i
    { block_name := [], block_invocation := 0, block_site := 0,
      block_calls := 0, block_time_self_total := 0, block_time_total := 0,
      block_parent := fun _ => clear_parent, block_child := fun _ => clear_child }

/-- Function `init_block` from profile.c: fill the RECURSE_MAX entries of the block
id array of a call site with PROFILE_INVALID. -/
def init_block (a : Int → Int) : Int → Int :=
  fun i => if 0 ≤ i ∧ i < (RECURSE_MAX : Int) then PROFILE_INVALID else a i

/-- Function `new_block` from profile.c: abort when the block table is full, else
mangle the name, record the invocation index and the owning call site
(the invocation pointer), zero the statistics (`clear_block`), append the
block and return its id. -/
def new_block (st : PState) (site : Nat) (name : List Char) (inv : Int) :
    Except PErr (Nat × PState) :=
  if BLOCK_MAX ≤ st.blocks.length then .error .blockMax
  else
    match mangle name with
    | .error _ => .error .mangleBug
    | .ok mname =>
      let b : Block :=
        { block_name := mname, block_invocation := inv, block_site := site,
          block_calls := 0, block_time_self_total := 0, block_time_total := 0,
          block_parent := fun _ => clear_parent,
          block_child := fun _ => clear_child }
      .ok (st.blocks.length, { st with blocks := st.blocks ++ [b] })

/-- Function `begin_block` from profile.c. If the stack is not empty, the suspended
open sub-interval of the suspended frame (from its `stack_count_begin` to the stamp taken
at macro entry) is corrected and added to its self time; otherwise the
top-level overhead window opens. Then the stack bound is checked and a fresh
frame is pushed; the final counter write of the macro lands in its
`stack_count_begin` (`o.tBegin`). -/
def begin_block (st : PState) (block_id : Nat) (o : EnterObs) :
    Except PErr PState :=
  let st1 :=
    match st.stack with
    | prev :: rest =>
      let prev1 :=
        { prev with
          stack_time_self := prev.stack_time_self +
            SECS (counter_correction [o.s1, o.s2] (o.tStamp - prev.stack_count_begin)) }
      { st with stack := prev1 :: rest }
    | [] => { st with counter_overhead_begin := o.tOvh }
  if STACK_MAX ≤ st1.stack.length then .error .stackMax
  else
    .ok { st1 with stack :=
      { stack_id := block_id, stack_time_self := 0, stack_time_total := 0,
        stack_count_begin := o.tBegin } :: st1.stack }

/-- Function `end_block` from profile.c. Popping an empty stack is the underflow
abort. Otherwise the last sub-interval of the closing frame is corrected and
added to its self time, its total absorbs its self time, the statistics of
its block and the recursion counter of its call site are updated, and either the
parent frame absorbs the closed total and both call-graph edges are
recorded (with the parent resume stamp `o.tResume`), or the top-level
window closes into `time_total`. -/
def end_block (st : PState) (o : ExitObs) : Except PErr PState :=
  match st.stack with
  | [] => .error .stackUnderflow
  | cur :: rest =>
    let cur1 :=
      { cur with
        stack_time_self := cur.stack_time_self +
          SECS (counter_correction [o.s1, o.s2] (o.tStamp - cur.stack_count_begin)) }
    let cur2 := { cur1 with stack_time_total := cur1.stack_time_total + cur1.stack_time_self }
    let st1 : PState :=
      { st with blocks :=
        list_modify st.blocks cur2.stack_id (fun b =>
          { b with
            block_calls := b.block_calls + 1,
            block_time_self_total := b.block_time_self_total + cur2.stack_time_self,
            block_time_total := b.block_time_total + cur2.stack_time_total }) }
    let site : Nat := (blockAt st1 cur2.stack_id).block_site
    let sdec : SiteState :=
      { st1.sites site with block_invocation := (st1.sites site).block_invocation - 1 }
    let st2 : PState := { st1 with sites := nfun_set st1.sites site sdec }
    if (st2.sites site).block_invocation < 0 then .error .invocationNegative
    else
      match rest with
      | prev :: rest2 =>
        let prev1 :=
          { prev with
            stack_time_total := prev.stack_time_total + cur2.stack_time_total,
            stack_count_begin := o.tResume }
        let st3 := { st2 with stack := prev1 :: rest2 }
        let st4 :=
          { st3 with blocks :=
            list_modify st3.blocks cur2.stack_id (fun b =>
              let pe : ParentEnt :=
                { parent_active := true,
                  parent_calls := (b.block_parent prev1.stack_id).parent_calls + 1 }
              { b with block_parent := nfun_set b.block_parent prev1.stack_id pe }) }
        let st5 :=
          { st4 with blocks :=
            list_modify st4.blocks prev1.stack_id (fun b =>
              let ce : ChildEnt :=
                { child_active := true,
                  child_calls := (b.block_child cur2.stack_id).child_calls + 1,
                  child_time_total :=
                    (b.block_child cur2.stack_id).child_time_total + cur2.stack_time_total }
              { b with block_child := nfun_set b.block_child cur2.stack_id ce }) }
        .ok st5
      | [] =>
        let st3 := { st2 with stack := [], counter_overhead_end := o.tOvh }
        .ok { st3 with time_total :=
          st3.time_total + SECS (st3.counter_overhead_end - st3.counter_overhead_begin) }

/-- The BEGIN_BLOCK(X) macro from profile.h, expanded for one call site: on
first use the site initializes its block id array and sets its counter
to 1; the counter is incremented; the block id cached for that counter value
is consulted (an out-of-bounds read when the counter has passed
RECURSE_MAX - 1, with no bound check in the source), `new_block` fills it
when it is still PROFILE_INVALID, and `begin_block` runs. -/
def BEGIN_BLOCK (st : PState) (site : Nat) (name : List Char) (o : EnterObs) :
    Except PErr PState :=
  let ss0 := st.sites site
  let ss1 :=
    if ss0.block_invocation = 0 then
      { block_id := init_block ss0.block_id, block_invocation := 1 }
    else ss0
  let ss2 := { ss1 with block_invocation := ss1.block_invocation + 1 }
  let idx := ss2.block_invocation
  if ss2.block_id idx = PROFILE_INVALID then
    match new_block { st with sites := nfun_set st.sites site ss2 } site name idx with
    | .error e => .error e
    | .ok (bid, st1) =>
      let ss3 := { ss2 with block_id := fun_set ss2.block_id idx (bid : Int) }
      begin_block { st1 with sites := nfun_set st1.sites site ss3 } bid o
  else
    begin_block { st with sites := nfun_set st.sites site ss2 }
      (ss2.block_id idx).toNat o

/-- The END_BLOCK macro from profile.h: a counter stamp followed by
`end_block` (the final counter write is part of the `end_block` observation).
-/
def END_BLOCK (st : PState) (o : ExitObs) : Except PErr PState :=
  end_block st o

/-- One instrumentation event of a thread: a BEGIN_BLOCK expansion at a call
site (identified by `site`) with block name `name`, or an END_BLOCK
expansion. -/
inductive Ev where
  | beginB (site : Nat) (name : List Char) (o : EnterObs)
  | endB (o : ExitObs)

/-- Run one event. -/
def stepEv (st : PState) : Ev → Except PErr PState
  | .beginB site name o => BEGIN_BLOCK st site name o
  | .endB o => END_BLOCK st o

/-- Run a sequence of events, stopping at the first `PROFILE_BUG` abort. -/
def runTrace (st : PState) : List Ev → Except PErr PState
  | [] => .ok st
  | e :: es =>
    match stepEv st e with
    | .error x => .error x
    | .ok st1 => runTrace st1 es

/-- The per-thread state after `init_profile`: empty stack and block table,
zero total time, and zero-initialized call-site statics. -/
def init_profile : PState :=
  { stack := [], blocks := [],
    sites := fun _ => { block_id := fun _ => 0, block_invocation := 0 },
    counter_overhead_begin := 0, counter_overhead_end := 0, time_total := 0 }

/-- Function `return_pid` from profile.c: look the OS thread id up in the slot table
(a THREAD_MAX array, all slots PROFILE_INVALID after `init_profile`); if
absent, claim the first free slot; if none is free, abort. Returns the slot
and the updated table. -/
def return_pid (tids : Nat → Int) (tid : Int) : Except PErr (Nat × (Nat → Int)) :=
  match (List.range THREAD_MAX).find? (fun i => tids i = tid) with
  | some i => .ok (i, tids)
  | none =>
    match (List.range THREAD_MAX).find? (fun i => tids i = PROFILE_INVALID) with
    | some i => .ok (i, nfun_set tids i tid)
    | none => .error .threadMax

/-- PERC(X) from profile.c: `((X) / time_self_total * 100)`, with the
`time_self_total` denominator made explicit. -/
def PERC (time_self_total : ℚ) (x : ℚ) : ℚ := x / time_self_total * 100

/-- The `time_self_total` accumulation loop of `dump_profile`: the sum of
`block_time_self_total` over the blocks of the thread, in table order. -/
def sum_self (bs : List Block) : ℚ :=
  bs.foldl (fun a b => a + b.block_time_self_total) 0

/-- The aggregation of `block_child_calls` in `dump_profile`: the sum of
`child_calls` over the active entries of the BLOCK_MAX child
slots. -/
def child_calls_of (b : Block) : Int :=
  (List.range BLOCK_MAX).foldl
    (fun a j => if (b.block_child j).child_active then a + (b.block_child j).child_calls else a) 0

/-- The aggregation of `block_child_time_total` in `dump_profile`. -/
def child_time_of (b : Block) : ℚ :=
  (List.range BLOCK_MAX).foldl
    (fun a j => if (b.block_child j).child_active then a + (b.block_child j).child_time_total else a) 0

/-- The baseline search loop of `dump_profile`: the pointer is reassigned at
every block whose name compares equal, so the loop keeps the LAST matching
block of the table; stated recursively (a match in the tail wins over the
head). -/
def find_named (nm : List Char) : List Block → Option Block
  | [] => none
  | b :: bs =>
    match find_named nm bs with
    | some x => some x
    | none => if b.block_name = nm then some b else none

/-- The name of the whole-program block. -/
def main_name : List Char := "main".toList

/-- The name of the top-level working-region block. -/
def main_thread_name : List Char := "main-thread".toList

/-- The baseline choice of `dump_profile`: `main-thread` takes precedence
over `main`; `none` when neither name occurs (the fatal case). -/
def find_baseline (bs : List Block) : Option Block :=
  match find_named main_thread_name bs with
  | some b => some b
  | none => find_named main_name bs

/-- Swap two slots of the `sort` index array. -/
def list_swap (l : List Nat) (i j : Nat) : List Nat :=
  (l.set i (l.getD j 0)).set j (l.getD i 0)

/-- The inner loop of the straight-selection sort in `dump_profile`: scan
`jblock` from `iblock + 1` upward and keep the index of the strictly largest
key seen. -/
def sel_pass (key : Nat → ℚ) (l : List Nat) (i : Nat) : Nat :=
  (List.range' (i + 1) (l.length - (i + 1))).foldl
    (fun k j => if key (l.getD k 0) < key (l.getD j 0) then j else k) i

/-- The outer loop of the straight-selection sort: at step `iblock`, swap the
largest remaining key into position `iblock`; the fuel argument counts the
remaining steps (the loop runs while `iblock < nblock - 1`). -/
def sel_sort_go (key : Nat → ℚ) : Nat → List Nat → Nat → List Nat
  | 0, l, _ => l
  | fuel + 1, l, i =>
    if i + 1 < l.length then
      sel_sort_go key fuel (list_swap l i (sel_pass key l i)) (i + 1)
    else l

/-- The straight-selection sort of `dump_profile`, descending by `key`,
applied to the index array `sort[0..nblock-1]`. -/
def sel_sort (key : Nat → ℚ) (l : List Nat) : List Nat :=
  sel_sort_go key l.length l 0

/-- The rollup computation of `dump_profile`: for a block with
`block_invocation == 1`, its own self time and call count plus those of
every same-named block whose invocation differs from 1; zero for every
other block. Returns `(block_time_recursive_total,
block_calls_recursive_total)`. -/
def rec_totals (bs : List Block) (b : Block) : ℚ × Int :=
  if b.block_invocation = 1 then
    bs.foldl
      (fun p j =>
        if j.block_invocation = 1 then p
        else if j.block_name = b.block_name then
          (p.1 + j.block_time_self_total, p.2 + j.block_calls)
        else p)
      (b.block_time_self_total, b.block_calls)
  else (0, 0)

/-- One line of the first two tables of the report: name, invocation,
percentage, time and call count. -/
structure Row where
  row_name : List Char
  row_invocation : Int
  row_perc : ℚ
  row_time : ℚ
  row_calls : Int
deriving DecidableEq

/-- One line of the depth-aggregated rollup table: name, percentage of total
self time, percentage of the baseline total, summed self time, summed
calls, self time per call, and ticks per call. -/
structure RollRow where
  roll_name : List Char
  roll_perc : ℚ
  roll_perc_main : ℚ
  roll_time : ℚ
  roll_calls : Int
  roll_time_per_call : ℚ
  roll_ticks_per_call : Int
deriving DecidableEq

/-- The numeric content of one verbose per-block summary section. -/
structure SummaryRow where
  sum_name : List Char
  sum_invocation : Int
  sum_time_total : ℚ
  sum_calls : Int
  sum_perc_total : ℚ
  sum_time_self : ℚ
  sum_perc_self : ℚ
  sum_child_time : ℚ
  sum_perc_child : ℚ
deriving DecidableEq

/-- The computed content of the text report written by `dump_profile`:
header totals, the unterminated-block warnings, the three sorted tables and
the verbose summary sections. -/
structure Report where
  report_nblock : Nat
  report_warnings : List (List Char × Int)
  report_time_total : ℚ
  report_time_self_total : ℚ
  report_overhead : ℚ
  report_table1 : List Row
  report_table2 : List Row
  report_rollup : List RollRow
  report_summaries : List SummaryRow
deriving DecidableEq

/-- Function `dump_profile` from profile.c (GWP 1.2), with the pure file formatting
stripped: emit the unterminated-block warnings, aggregate per-block child
totals and the thread self-time total, select the percentage baseline
(fatal when absent), then emit the table sorted by total time, the table
sorted by self time, the depth-aggregated rollup table (anchored at blocks
with `block_invocation == 1`), and, when `verbose` is nonzero, the
per-block summary sections in rollup-sorted order. -/
def dump_profile (st : PState) (verbose : Int) : Except PErr Report :=
  let warnings := st.stack.reverse.map (fun fr =>
    ((blockAt st fr.stack_id).block_name, (blockAt st fr.stack_id).block_invocation))
  let time_self_total := sum_self st.blocks
  match find_baseline st.blocks with
  | none => .error .missingBaseline
  | some with_main =>
    let n := st.blocks.length
    let idx1 := sel_sort (fun i => (blockAt st i).block_time_total) (List.range n)
    let table1 := idx1.map (fun i =>
      let b := blockAt st i
      let r : Row :=
        { row_name := b.block_name, row_invocation := b.block_invocation,
          row_perc := PERC time_self_total b.block_time_total,
          row_time := b.block_time_total, row_calls := b.block_calls }
      r)
    let idx2 := sel_sort (fun i => (blockAt st i).block_time_self_total) (List.range n)
    let table2 := idx2.map (fun i =>
      let b := blockAt st i
      let r : Row :=
        { row_name := b.block_name, row_invocation := b.block_invocation,
          row_perc := PERC time_self_total b.block_time_self_total,
          row_time := b.block_time_self_total, row_calls := b.block_calls }
      r)
    let idx3 := sel_sort (fun i => (rec_totals st.blocks (blockAt st i)).1) (List.range n)
    let rollup := idx3.filterMap (fun i =>
      let b := blockAt st i
      if b.block_invocation = 1 then
        let rp := rec_totals st.blocks b
        let tpc := rp.1 / (rp.2 : ℚ)
        let r : RollRow :=
          { roll_name := b.block_name,
            roll_perc := PERC time_self_total rp.1,
            roll_perc_main := rp.1 / with_main.block_time_total * 100,
            roll_time := rp.1, roll_calls := rp.2,
            roll_time_per_call := tpc,
            roll_ticks_per_call := if tpc < 1 then c_round (tpc * frequency) else -1 }
        some r
      else none)
    let summaries :=
      if verbose = 0 then []
      else idx3.map (fun i =>
        let b := blockAt st i
        let r : SummaryRow :=
          { sum_name := b.block_name, sum_invocation := b.block_invocation,
            sum_time_total := b.block_time_total, sum_calls := b.block_calls,
            sum_perc_total := PERC time_self_total b.block_time_total,
            sum_time_self := b.block_time_self_total,
            sum_perc_self := PERC time_self_total b.block_time_self_total,
            sum_child_time := child_time_of b,
            sum_perc_child := PERC time_self_total (child_time_of b) }
        r)
    .ok { report_nblock := n, report_warnings := warnings,
          report_time_total := st.time_total,
          report_time_self_total := time_self_total,
          report_overhead := st.time_total - time_self_total,
          report_table1 := table1, report_table2 := table2,
          report_rollup := rollup, report_summaries := summaries }

/-- Whether an `Except` value is a success. -/
def is_ok {ε α : Type} : Except ε α → Bool
  | .ok _ => true
  | .error _ => false

theorem counter_correction_nonneg (samples : List Int) (delta : Int) :
    0 ≤ counter_correction samples delta := by
  simp only [counter_correction]
  split <;> omega

/-- Claim C1: `counter_correction` always returns a non-negative duration; it
subtracts the rounded mean of the freshly taken overhead samples from the
raw interval, and when the raw interval is smaller than that rounded
sampled overhead the corrected value is exactly zero. -/
theorem counter_correction_clamps (samples : List Int) (delta : Int) :
    0 ≤ counter_correction samples delta ∧
      (delta < c_round (welford_mean samples) →
        counter_correction samples delta = 0) ∧
      (c_round (welford_mean samples) ≤ delta →
        counter_correction samples delta = delta - c_round (welford_mean samples)) := by
  refine ⟨counter_correction_nonneg samples delta, ?_, ?_⟩ <;>
    · intro h
      simp only [counter_correction]
      split <;> omega

/-- Witness for C1 at concrete samples 5 and 7 (rounded mean 6): the raw
interval 3 is clamped to 0 and the raw interval 10 corrects to 4. -/
theorem counter_correction_clamps_witness :
    counter_correction [5, 7] 3 = 0 ∧ counter_correction [5, 7] 10 = 4 :=
  ⟨(counter_correction_clamps [5, 7] 3).2.1 (by with_unfolding_all decide),
   by
    rw [(counter_correction_clamps [5, 7] 10).2.2 (by with_unfolding_all decide)]
    with_unfolding_all decide⟩

/-- Claim C7: an END_BLOCK on a thread whose call stack is empty (more exit
than enter calls) hits the stack-underflow `PROFILE_BUG` abort: the step
returns the underflow diagnostic and no successor state exists. -/
theorem end_block_underflow (st : PState) (o : ExitObs) (h : st.stack = []) :
    END_BLOCK st o = .error .stackUnderflow := by
  unfold END_BLOCK end_block
  rw [h]

/-- Witness for C7: an END_BLOCK right after `init_profile`. -/
theorem end_block_underflow_witness :
    END_BLOCK init_profile { tStamp := 0, s1 := 0, s2 := 0, tOvh := 0, tResume := 0 } =
      .error .stackUnderflow :=
  end_block_underflow init_profile _ rfl

theorem mangle_loop_go_ok_short : ∀ (fuel : Nat) (m : List Char) (r : List Char),
    mangle_loop_go fuel m = .ok r → r.length < NAME_MAX := by
  intro fuel
  induction fuel with
  | zero => intro m r hk; cases hk
  | succ fuel ih =>
    intro m r hk
    rw [mangle_loop_go] at hk
    split at hk
    · cases hr : rightmost_target m with
      | none => rw [hr] at hk; cases hk
      | some n => rw [hr] at hk; exact ih _ r hk
    · cases hk
      omega

theorem mangle_loop_ok_short (m : List Char) (r : List Char)
    (h : mangle_loop m = .ok r) : r.length < NAME_MAX :=
  mangle_loop_go_ok_short m.length m r h

/-- Claim C10: the name mangler is a no-op on every name shorter than
NAME_MAX, and whenever it succeeds its result fits the column width and is a
fixed point, so mangling is idempotent (and, being a function, it is
deterministic). -/
theorem mangle_idempotent (s : List Char) :
    (s.length < NAME_MAX → mangle s = .ok s) ∧
      ∀ r, mangle s = .ok r → r.length < NAME_MAX ∧ mangle r = .ok r := by
  constructor
  · intro h
    unfold mangle
    rw [if_pos h]
  · intro r h
    have hlen : r.length < NAME_MAX := by
      unfold mangle at h
      split at h
      · cases h; omega
      · split at h
        · cases h
        · exact mangle_loop_ok_short _ _ h
    refine ⟨hlen, ?_⟩
    unfold mangle
    rw [if_pos hlen]

/-- A name of 40 characters, exercising the deletion loop of `mangle`. -/
def mangle_example : List Char := "a_very_long_profile_block_name_for_tests".toList

/-- Witness for C10: the no-op case at the 4-character name `main` and the
shortening case at a 40-character name. -/
theorem mangle_idempotent_witness :
    mangle main_name = .ok main_name ∧
      ∃ r, mangle mangle_example = .ok r ∧ r.length < NAME_MAX ∧ mangle r = .ok r := by
  refine ⟨(mangle_idempotent main_name).1 (by decide), ?_⟩
  cases hr : mangle mangle_example with
  | error e =>
    have hok : is_ok (mangle mangle_example) = true := by decide
    rw [hr] at hok
    simp [is_ok] at hok
  | ok r => exact ⟨r, rfl, (mangle_idempotent mangle_example).2 r hr⟩

theorem frequency_pos : 0 < frequency := by norm_num [frequency]

theorem SECS_nonneg {x : Int} (h : 0 ≤ x) : 0 ≤ SECS x := by
  unfold SECS
  have hx : (0 : ℚ) ≤ (x : ℚ) := by exact_mod_cast h
  exact div_nonneg hx (le_of_lt frequency_pos)

theorem SECS_cc_nonneg (s : List Int) (d : Int) :
    0 ≤ SECS (counter_correction s d) :=
  SECS_nonneg (counter_correction_nonneg s d)

/-- Invariant of one open stack frame: both accumulators are non-negative
(the self accumulator only ever absorbs clamped corrected intervals, the
total accumulator only absorbs closed child totals). -/
def FrameInv (fr : Frame) : Prop :=
  0 ≤ fr.stack_time_self ∧ 0 ≤ fr.stack_time_total

/-- Invariant of one block: its cumulative self time is non-negative and
bounded by its cumulative total time. -/
def BlockInv (b : Block) : Prop :=
  0 ≤ b.block_time_self_total ∧ b.block_time_self_total ≤ b.block_time_total

/-- Invariant of the whole per-thread state. -/
def StInv (st : PState) : Prop :=
  (∀ fr ∈ st.stack, FrameInv fr) ∧ (∀ b ∈ st.blocks, BlockInv b)

theorem list_modify_mem {α : Type} {l : List α} {i : Nat} {f : α → α} {x : α}
    (h : x ∈ list_modify l i f) : x ∈ l ∨ ∃ y, y ∈ l ∧ x = f y := by
  induction l generalizing i with
  | nil => simp [list_modify] at h
  | cons a as ih =>
    cases i with
    | zero =>
      rcases List.mem_cons.mp h with h1 | h1
      · exact Or.inr ⟨a, List.mem_cons_self a as, h1⟩
      · exact Or.inl (List.mem_cons_of_mem a h1)
    | succ n =>
      rcases List.mem_cons.mp h with h1 | h1
      · exact Or.inl (by rw [h1]; exact List.mem_cons_self a as)
      · rcases ih h1 with h2 | ⟨y, hy, hxy⟩
        · exact Or.inl (List.mem_cons_of_mem a h2)
        · exact Or.inr ⟨y, List.mem_cons_of_mem a hy, hxy⟩

theorem new_block_inv {st : PState} {site : Nat} {name : List Char} {inv : Int}
    {bid : Nat} {st1 : PState} (h : StInv st)
    (hok : new_block st site name inv = .ok (bid, st1)) : StInv st1 := by
  unfold new_block at hok
  split at hok
  · cases hok
  · cases hm : mangle name with
    | error e => rw [hm] at hok; cases hok
    | ok mname =>
      rw [hm] at hok
      cases hok
      refine ⟨h.1, ?_⟩
      intro b hb
      rcases List.mem_append.mp hb with h1 | h2
      · exact h.2 b h1
      · have hb2 : b = _ := List.mem_singleton.mp h2
        rw [hb2]
        exact ⟨le_refl 0, le_refl 0⟩

theorem begin_block_inv {st : PState} {bid : Nat} {o : EnterObs} {st2 : PState}
    (h : StInv st) (hok : begin_block st bid o = .ok st2) : StInv st2 := by
  obtain ⟨stk, blks, sts, cb, ce, tt⟩ := st
  unfold begin_block at hok
  cases stk with
  | nil =>
    dsimp at hok
    split at hok
    · cases hok
    · cases hok
      refine ⟨?_, h.2⟩
      intro fr hfr
      rcases List.mem_cons.mp hfr with h1 | h1
      · rw [h1]; exact ⟨le_refl 0, le_refl 0⟩
      · cases h1
  | cons prev rest =>
    dsimp at hok
    split at hok
    · cases hok
    · cases hok
      refine ⟨?_, h.2⟩
      intro fr hfr
      rcases List.mem_cons.mp hfr with h1 | h1
      · rw [h1]; exact ⟨le_refl 0, le_refl 0⟩
      · rcases List.mem_cons.mp h1 with h2 | h2
        · have hp : FrameInv prev := h.1 prev (List.mem_cons_self prev rest)
          rw [h2]
          refine ⟨?_, hp.2⟩
          exact add_nonneg hp.1 (SECS_cc_nonneg _ _)
        · exact h.1 fr (List.mem_cons_of_mem prev h2)

theorem block_update_inv {b : Block} (hb : BlockInv b) {s t : ℚ}
    (hs : 0 ≤ s) (hst : s ≤ t) :
    BlockInv { b with
      block_calls := b.block_calls + 1,
      block_time_self_total := b.block_time_self_total + s,
      block_time_total := b.block_time_total + t } := by
  refine ⟨add_nonneg hb.1 hs, ?_⟩
  exact add_le_add hb.2 hst

theorem end_block_inv {st : PState} {o : ExitObs} {st2 : PState}
    (h : StInv st) (hok : end_block st o = .ok st2) : StInv st2 := by
  obtain ⟨stk, blks, sts, cb, ce, tt⟩ := st
  unfold end_block at hok
  cases stk with
  | nil => cases hok
  | cons cur rest =>
    dsimp at hok
    have hcur : FrameInv cur := h.1 cur (List.mem_cons_self cur rest)
    have hself : 0 ≤ cur.stack_time_self + SECS (counter_correction [o.s1, o.s2] (o.tStamp - cur.stack_count_begin)) :=
      add_nonneg hcur.1 (SECS_cc_nonneg _ _)
    have hst : cur.stack_time_self + SECS (counter_correction [o.s1, o.s2] (o.tStamp - cur.stack_count_begin)) ≤
        cur.stack_time_total + (cur.stack_time_self + SECS (counter_correction [o.s1, o.s2] (o.tStamp - cur.stack_count_begin))) := by
      have := hcur.2
      linarith
    have hblocks : ∀ b ∈ list_modify blks cur.stack_id (fun b =>
        { b with
          block_calls := b.block_calls + 1,
          block_time_self_total := b.block_time_self_total +
            (cur.stack_time_self + SECS (counter_correction [o.s1, o.s2] (o.tStamp - cur.stack_count_begin))),
          block_time_total := b.block_time_total +
            (cur.stack_time_total + (cur.stack_time_self + SECS (counter_correction [o.s1, o.s2] (o.tStamp - cur.stack_count_begin)))) }),
        BlockInv b := by
      intro b hb
      rcases list_modify_mem hb with h1 | ⟨y, hy, hxy⟩
      · exact h.2 b h1
      · rw [hxy]
        exact block_update_inv (h.2 y hy) hself hst
    split at hok
    · cases hok
    · cases rest with
      | nil =>
        cases hok
        exact ⟨fun fr hfr => absurd hfr (List.not_mem_nil fr), hblocks⟩
      | cons prev rest2 =>
        cases hok
        constructor
        · intro fr hfr
          rcases List.mem_cons.mp hfr with h1 | h1
          · have hp : FrameInv prev := h.1 prev (List.mem_cons_of_mem cur (List.mem_cons_self prev rest2))
            rw [h1]
            refine ⟨hp.1, ?_⟩
            have ht : 0 ≤ cur.stack_time_total + (cur.stack_time_self + SECS (counter_correction [o.s1, o.s2] (o.tStamp - cur.stack_count_begin))) := by
              have := hcur.2
              linarith
            exact add_nonneg hp.2 ht
          · exact h.1 fr (List.mem_cons_of_mem cur (List.mem_cons_of_mem prev h1))
        · intro b hb
          rcases list_modify_mem hb with h1 | ⟨y, hy, hxy⟩
          · rcases list_modify_mem h1 with h2 | ⟨y2, hy2, hxy2⟩
            · exact hblocks b h2
            · rw [hxy2]
              exact hblocks y2 hy2
          · rcases list_modify_mem hy with h2 | ⟨y2, hy2, hxy2⟩
            · rw [hxy]
              exact hblocks y h2
            · rw [hxy, hxy2]
              exact hblocks y2 hy2

theorem StInv_sites {st : PState} (h : StInv st) (f : Nat → SiteState) :
    StInv { st with sites := f } :=
  ⟨h.1, h.2⟩

theorem BEGIN_BLOCK_inv {st : PState} {site : Nat} {name : List Char}
    {o : EnterObs} {st2 : PState} (h : StInv st)
    (hok : BEGIN_BLOCK st site name o = .ok st2) : StInv st2 := by
  unfold BEGIN_BLOCK at hok
  dsimp only at hok
  split at hok
  · split at hok
    · split at hok
      · cases hok
      · rename_i bid st1 heq
        exact begin_block_inv (StInv_sites (new_block_inv (StInv_sites h _) heq) _) hok
    · exact begin_block_inv (StInv_sites h _) hok
  · split at hok
    · split at hok
      · cases hok
      · rename_i bid st1 heq
        exact begin_block_inv (StInv_sites (new_block_inv (StInv_sites h _) heq) _) hok
    · exact begin_block_inv (StInv_sites h _) hok

theorem stepEv_inv {st : PState} {e : Ev} {st2 : PState}
    (h : StInv st) (hok : stepEv st e = .ok st2) : StInv st2 := by
  cases e with
  | beginB site name o => exact BEGIN_BLOCK_inv h hok
  | endB o => exact end_block_inv h hok

theorem runTrace_inv : ∀ (tr : List Ev) (st st2 : PState),
    StInv st → runTrace st tr = .ok st2 → StInv st2 := by
  intro tr
  induction tr with
  | nil =>
    intro st st2 h hr
    cases hr
    exact h
  | cons e es ih =>
    intro st st2 h hr
    unfold runTrace at hr
    cases hst : stepEv st e with
    | error x => rw [hst] at hr; cases hr
    | ok st1 =>
      rw [hst] at hr
      exact ih st1 st2 (stepEv_inv h hst) hr

theorem init_profile_inv : StInv init_profile :=
  ⟨fun fr hfr => absurd hfr (List.not_mem_nil fr),
   fun b hb => absurd hb (List.not_mem_nil b)⟩

theorem sum_self_eq (bs : List Block) :
    sum_self bs = (bs.map Block.block_time_self_total).sum := by
  have hgen : ∀ (l : List Block) (a : ℚ),
      l.foldl (fun a b => a + b.block_time_self_total) a =
        a + (l.map Block.block_time_self_total).sum := by
    intro l
    induction l with
    | nil => intro a; simp
    | cons b bs ih =>
      intro a
      simp only [List.foldl_cons, List.map_cons, List.sum_cons]
      rw [ih]
      ring
  simpa [sum_self] using hgen bs 0

/-- Claim C2: in every state reachable by a trace of BEGIN_BLOCK and
END_BLOCK events (in particular after every completed `end_block`), every
block satisfies `block_time_self_total ≤ block_time_total`, and the total
self time reported by `dump_profile` is exactly the sum of
`block_time_self_total` over the blocks of the thread. -/
theorem block_total_ge_self_and_dump_sum (tr : List Ev) (st : PState) (v : Int)
    (hr : runTrace init_profile tr = .ok st) :
    (∀ b ∈ st.blocks, b.block_time_self_total ≤ b.block_time_total) ∧
      ∀ r, dump_profile st v = .ok r →
        r.report_time_self_total = (st.blocks.map Block.block_time_self_total).sum := by
  have hinv := runTrace_inv tr init_profile st init_profile_inv hr
  constructor
  · intro b hb
    exact (hinv.2 b hb).2
  · intro r hrr
    unfold dump_profile at hrr
    cases hb : find_baseline st.blocks with
    | none => rw [hb] at hrr; cases hrr
    | some wm =>
      rw [hb] at hrr
      cases hrr
      exact sum_self_eq st.blocks

/-- All-zero clock observations for an enter event. -/
def z_enter : EnterObs := { tStamp := 0, s1 := 0, s2 := 0, tOvh := 0, tBegin := 0 }

/-- All-zero clock observations for an exit event. -/
def z_exit : ExitObs := { tStamp := 0, s1 := 0, s2 := 0, tOvh := 0, tResume := 0 }

/-- A minimal trace: one `main` block opened and closed. -/
def c2_trace : List Ev := [.beginB 0 main_name z_enter, .endB z_exit]

/-- The state after running `c2_trace`. -/
def c2_state : PState :=
  match runTrace init_profile c2_trace with
  | .ok st => st
  | .error _ => init_profile

/-- An empty report, used as the fallback of concrete report extractions. -/
def empty_report : Report :=
  { report_nblock := 0, report_warnings := [], report_time_total := 0,
    report_time_self_total := 0, report_overhead := 0, report_table1 := [],
    report_table2 := [], report_rollup := [], report_summaries := [] }

/-- The report dumped after running `c2_trace`. -/
def c2_report : Report :=
  match dump_profile c2_state 0 with
  | .ok r => r
  | .error _ => empty_report

/-- Witness for C2: the concrete two-event trace runs to completion, its
block invariant holds, and its dumped total self time is the block sum. -/
theorem block_total_ge_self_and_dump_sum_witness :
    runTrace init_profile c2_trace = .ok c2_state ∧
      (∀ b ∈ c2_state.blocks, b.block_time_self_total ≤ b.block_time_total) ∧
      dump_profile c2_state 0 = .ok c2_report ∧
      c2_report.report_time_self_total =
        (c2_state.blocks.map Block.block_time_self_total).sum := by
  have hr : runTrace init_profile c2_trace = .ok c2_state := by
    with_unfolding_all rfl
  have hd : dump_profile c2_state 0 = .ok c2_report := by
    with_unfolding_all rfl
  have h := block_total_ge_self_and_dump_sum c2_trace c2_state 0 hr
  exact ⟨hr, h.1, hd, h.2 c2_report hd⟩

theorem begin_block_error {st : PState} {bid : Nat} {o : EnterObs} {e : PErr}
    (h : begin_block st bid o = .error e) : e = .stackMax := by
  obtain ⟨stk, blks, sts, cb, ce, tt⟩ := st
  unfold begin_block at h
  cases stk <;> dsimp at h <;> split at h <;>
    first
      | exact (Except.error.inj h).symm
      | cases h

theorem new_block_error {st : PState} {site : Nat} {name : List Char}
    {inv : Int} {e : PErr} (h : new_block st site name inv = .error e) :
    e = .blockMax ∨ e = .mangleBug := by
  unfold new_block at h
  split at h
  · exact Or.inl (Except.error.inj h).symm
  · cases hm : mangle name with
    | error e2 => rw [hm] at h; exact Or.inr (Except.error.inj h).symm
    | ok mname => rw [hm] at h; cases h

theorem end_block_error {st : PState} {o : ExitObs} {e : PErr}
    (h : end_block st o = .error e) :
    e = .stackUnderflow ∨ e = .invocationNegative := by
  obtain ⟨stk, blks, sts, cb, ce, tt⟩ := st
  unfold end_block at h
  cases stk with
  | nil => exact Or.inl (Except.error.inj h).symm
  | cons cur rest =>
    dsimp at h
    split at h
    · exact Or.inr (Except.error.inj h).symm
    · cases rest <;> dsimp at h <;> cases h

theorem BEGIN_BLOCK_error {st : PState} {site : Nat} {name : List Char}
    {o : EnterObs} {e : PErr} (h : BEGIN_BLOCK st site name o = .error e) :
    e = .stackMax ∨ e = .blockMax ∨ e = .mangleBug := by
  unfold BEGIN_BLOCK at h
  dsimp only at h
  split at h <;> split at h
  case _ =>
    split at h
    · rename_i e2 heq
      have he : e2 = e := Except.error.inj h
      subst he
      exact Or.inr (new_block_error heq)
    · exact Or.inl (begin_block_error h)
  case _ => exact Or.inl (begin_block_error h)
  case _ =>
    split at h
    · rename_i e2 heq
      have he : e2 = e := Except.error.inj h
      subst he
      exact Or.inr (new_block_error heq)
    · exact Or.inl (begin_block_error h)
  case _ => exact Or.inl (begin_block_error h)

theorem find_named_mem {nm : List Char} : ∀ {bs : List Block} {b : Block},
    find_named nm bs = some b → b ∈ bs := by
  intro bs
  induction bs with
  | nil => intro b h; cases h
  | cons a as ih =>
    intro b h
    unfold find_named at h
    cases hf : find_named nm as with
    | some x =>
      rw [hf] at h
      injection h with hx
      subst hx
      exact List.mem_cons_of_mem a (ih hf)
    | none =>
      rw [hf] at h
      by_cases hc : a.block_name = nm
      · rw [if_pos hc] at h
        injection h with hab
        subst hab
        exact List.mem_cons_self a as
      · rw [if_neg hc] at h
        exact Option.noConfusion h

theorem find_named_name {nm : List Char} : ∀ {bs : List Block} {b : Block},
    find_named nm bs = some b → b.block_name = nm := by
  intro bs
  induction bs with
  | nil => intro b h; cases h
  | cons a as ih =>
    intro b h
    unfold find_named at h
    cases hf : find_named nm as with
    | some x =>
      rw [hf] at h
      injection h with hx
      subst hx
      exact ih hf
    | none =>
      rw [hf] at h
      by_cases hc : a.block_name = nm
      · rw [if_pos hc] at h
        injection h with hab
        subst hab
        exact hc
      · rw [if_neg hc] at h
        exact Option.noConfusion h

theorem find_named_none {nm : List Char} : ∀ {bs : List Block},
    find_named nm bs = none ↔ ∀ b ∈ bs, b.block_name ≠ nm := by
  intro bs
  induction bs with
  | nil => simp [find_named]
  | cons a as ih =>
    constructor
    · intro h b hb
      unfold find_named at h
      cases hf : find_named nm as with
      | some x => rw [hf] at h; exact Option.noConfusion h
      | none =>
        rw [hf] at h
        by_cases hc : a.block_name = nm
        · rw [if_pos hc] at h
          exact Option.noConfusion h
        · rcases List.mem_cons.mp hb with h1 | h1
          · rw [h1]; exact hc
          · exact ih.mp hf b h1
    · intro hall
      unfold find_named
      cases hf : find_named nm as with
      | some x =>
        exact absurd (find_named_name hf)
          (hall x (List.mem_cons_of_mem a (find_named_mem hf)))
      | none =>
        rw [if_neg (hall a (List.mem_cons_self a as))]

/-- Claim C9: `dump_profile` selects the percentage baseline by block name,
prefers `main-thread` over `main`, fails with the missing-baseline
diagnostic exactly when neither name occurs among the blocks of the thread, and
this diagnostic can never be produced by a BEGIN_BLOCK or END_BLOCK
transition. -/
theorem baseline_selection (st : PState) (v : Int) :
    (dump_profile st v = .error .missingBaseline ↔ find_baseline st.blocks = none) ∧
      (find_baseline st.blocks = none ↔
        ∀ b ∈ st.blocks, b.block_name ≠ main_name ∧ b.block_name ≠ main_thread_name) ∧
      ((∃ b ∈ st.blocks, b.block_name = main_thread_name) →
        ∃ wb, find_baseline st.blocks = some wb ∧ wb.block_name = main_thread_name) ∧
      (∀ site name o, BEGIN_BLOCK st site name o ≠ .error .missingBaseline) ∧
      (∀ o, END_BLOCK st o ≠ .error .missingBaseline) := by
  refine ⟨?_, ?_, ?_, ?_, ?_⟩
  · unfold dump_profile
    cases hb : find_baseline st.blocks with
    | none => simp
    | some wm => simp
  · unfold find_baseline
    cases hmt : find_named main_thread_name st.blocks with
    | some x =>
      simp only [hmt]
      constructor
      · intro h; cases h
      · intro hall
        exact absurd (find_named_name hmt)
          ((hall x (find_named_mem hmt)).2)
    | none =>
      simp only [hmt]
      constructor
      · intro h b hb
        exact ⟨find_named_none.mp h b hb, find_named_none.mp hmt b hb⟩
      · intro hall
        exact find_named_none.mpr (fun b hb => (hall b hb).1)
  · rintro ⟨b, hb, hname⟩
    cases hmt : find_named main_thread_name st.blocks with
    | some wb =>
      refine ⟨wb, ?_, find_named_name hmt⟩
      unfold find_baseline
      rw [hmt]
    | none =>
      exact absurd hname (find_named_none.mp hmt b hb)
  · intro site name o h
    rcases BEGIN_BLOCK_error h with h1 | h1 | h1 <;> cases h1
  · intro o h
    rcases end_block_error h with h1 | h1 <;> cases h1

/-- A completed whole-program block, used in concrete baseline states. -/
def b_main : Block :=
  { block_name := main_name, block_invocation := 2, block_site := 0,
    block_calls := 1, block_time_self_total := 0, block_time_total := 0,
    block_parent := fun _ => clear_parent, block_child := fun _ => clear_child }

/-- A completed top-level working-region block. -/
def b_mt : Block := { b_main with block_name := main_thread_name, block_site := 1 }

/-- A state holding both a `main` and a `main-thread` block. -/
def c9_state : PState := { init_profile with blocks := [b_main, b_mt] }

/-- Witness for C9, at a state holding both candidate baseline blocks: the
missing-baseline equivalence, the concrete preference for `main-thread`, and
the impossibility of the diagnostic on enter and exit steps. -/
theorem baseline_selection_witness :
    (dump_profile c9_state 0 = .error .missingBaseline ↔
        find_baseline c9_state.blocks = none) ∧
      (∃ wb, find_baseline c9_state.blocks = some wb ∧
        wb.block_name = main_thread_name) ∧
      BEGIN_BLOCK c9_state 0 main_name z_enter ≠ .error .missingBaseline ∧
      END_BLOCK c9_state z_exit ≠ .error .missingBaseline :=
  ⟨(baseline_selection c9_state 0).1,
   (baseline_selection c9_state 0).2.2.1
     ⟨b_mt, List.mem_cons_of_mem b_main (List.mem_cons_self b_mt []), rfl⟩,
   (baseline_selection c9_state 0).2.2.2.1 0 main_name z_enter,
   (baseline_selection c9_state 0).2.2.2.2 z_exit⟩

theorem list_swap_length (l : List Nat) (i j : Nat) :
    (list_swap l i j).length = l.length := by
  simp [list_swap]

theorem sel_sort_go_length (key : Nat → ℚ) :
    ∀ (fuel : Nat) (l : List Nat) (i : Nat),
      (sel_sort_go key fuel l i).length = l.length := by
  intro fuel
  induction fuel with
  | zero => intro l i; rfl
  | succ fuel ih =>
    intro l i
    unfold sel_sort_go
    split
    · rw [ih, list_swap_length]
    · rfl

theorem sel_sort_length (key : Nat → ℚ) (l : List Nat) :
    (sel_sort key l).length = l.length :=
  sel_sort_go_length key l.length l 0

/-- Claim C8: when blocks are still open at dump time and a baseline block
exists, `dump_profile` does not fail: it returns a report whose header lists
every unterminated block (name and invocation, bottom of the stack first)
as a warning, and the two per-block statistics tables still carry one row
per registered block. -/
theorem dump_nonfatal_with_open_blocks (st : PState) (v : Int)
    (hne : st.stack ≠ []) (hbase : (find_baseline st.blocks).isSome = true) :
    ∃ r, dump_profile st v = .ok r ∧
      r.report_warnings = st.stack.reverse.map (fun fr =>
        ((blockAt st fr.stack_id).block_name, (blockAt st fr.stack_id).block_invocation)) ∧
      r.report_warnings ≠ [] ∧
      r.report_table1.length = st.blocks.length ∧
      r.report_table2.length = st.blocks.length := by
  cases hb : find_baseline st.blocks with
  | none => rw [hb] at hbase; simp [Option.isSome] at hbase
  | some wm =>
    unfold dump_profile
    rw [hb]
    refine ⟨_, rfl, rfl, ?_, ?_, ?_⟩
    · simp [hne]
    · simp [sel_sort_length]
    · simp [sel_sort_length]

/-- A trace leaving its single `main` block open. -/
def c8_trace : List Ev := [.beginB 0 main_name z_enter]

/-- The state after running `c8_trace`. -/
def c8_state : PState :=
  match runTrace init_profile c8_trace with
  | .ok st => st
  | .error _ => init_profile

/-- Witness for C8 at the concrete state with one open `main` block. -/
theorem dump_nonfatal_with_open_blocks_witness :
    ∃ r, dump_profile c8_state 1 = .ok r ∧
      r.report_warnings = c8_state.stack.reverse.map (fun fr =>
        ((blockAt c8_state fr.stack_id).block_name,
         (blockAt c8_state fr.stack_id).block_invocation)) ∧
      r.report_warnings ≠ [] ∧
      r.report_table1.length = c8_state.blocks.length ∧
      r.report_table2.length = c8_state.blocks.length :=
  dump_nonfatal_with_open_blocks c8_state 1 (by with_unfolding_all decide)
    (by with_unfolding_all decide)

/-- Amended C5: every percentage emitted in the report tables and summaries
is computed relative to the thread total self time (`PERC` divides by
`time_self_total`); only the `%main` column of the rollup table is relative
to the total time of the baseline block. -/
theorem perc_denominators (st : PState) (v : Int) (r : Report)
    (h : dump_profile st v = .ok r) :
    ∃ wm, find_baseline st.blocks = some wm ∧
      (∀ row ∈ r.report_table1,
        row.row_perc = PERC r.report_time_self_total row.row_time) ∧
      (∀ row ∈ r.report_table2,
        row.row_perc = PERC r.report_time_self_total row.row_time) ∧
      (∀ row ∈ r.report_rollup,
        row.roll_perc = PERC r.report_time_self_total row.roll_time ∧
        row.roll_perc_main = row.roll_time / wm.block_time_total * 100) ∧
      (∀ row ∈ r.report_summaries,
        row.sum_perc_total = PERC r.report_time_self_total row.sum_time_total ∧
        row.sum_perc_self = PERC r.report_time_self_total row.sum_time_self ∧
        row.sum_perc_child = PERC r.report_time_self_total row.sum_child_time) := by
  unfold dump_profile at h
  cases hb : find_baseline st.blocks with
  | none => rw [hb] at h; cases h
  | some wm =>
    rw [hb] at h
    cases h
    refine ⟨wm, rfl, ?_, ?_, ?_, ?_⟩
    · intro row hrow
      rcases List.mem_map.mp hrow with ⟨i, hi, hrow2⟩
      rw [← hrow2]
    · intro row hrow
      rcases List.mem_map.mp hrow with ⟨i, hi, hrow2⟩
      rw [← hrow2]
    · intro row hrow
      rcases List.mem_filterMap.mp hrow with ⟨i, hi, hfi⟩
      dsimp only at hfi
      split at hfi
      · injection hfi with hfi2
        rw [← hfi2]
        exact ⟨rfl, rfl⟩
      · cases hfi
    · intro row hrow
      by_cases hv : v = 0
      · rw [if_pos hv] at hrow
        cases hrow
      · rw [if_neg hv] at hrow
        rcases List.mem_map.mp hrow with ⟨i, hi, hrow2⟩
        rw [← hrow2]
        exact ⟨rfl, rfl, rfl⟩

/-- The exit observation closing a 10-tick interval. -/
def c5_exit1 : ExitObs := { tStamp := 10, s1 := 0, s2 := 0, tOvh := 0, tResume := 0 }

/-- The exit observation closing a 30-tick interval. -/
def c5_exit2 : ExitObs := { tStamp := 30, s1 := 0, s2 := 0, tOvh := 0, tResume := 0 }

/-- The name of a work block outside the baseline region. -/
def other_name : List Char := "other".toList

/-- A trace with a 10-tick `main-thread` block and a 30-tick sibling block
`other` outside it, so the baseline total (10 ticks) differs from the total
self time (40 ticks). -/
def c5_trace : List Ev :=
  [.beginB 0 main_thread_name z_enter, .endB c5_exit1,
   .beginB 1 other_name z_enter, .endB c5_exit2]

/-- The state after running `c5_trace`. -/
def c5_state : PState :=
  match runTrace init_profile c5_trace with
  | .ok st => st
  | .error _ => init_profile

/-- The report dumped after running `c5_trace`. -/
def c5_report : Report :=
  match dump_profile c5_state 0 with
  | .ok r => r
  | .error _ => empty_report

/-- The evaluation refuting C5 as stated: in `c5_report` the self-time table
row of block `other` carries percentage 75 (its time over the thread total
self time), while relative to the total time of the baseline block it would be
300, and the two differ. -/
def c5_check : Bool :=
  match c5_report.report_table2.find? (fun row => row.row_name == other_name) with
  | some row =>
    match find_baseline c5_state.blocks with
    | some wb =>
      (wb.block_name == main_thread_name) &&
      (row.row_perc == 75) &&
      (row.row_time / wb.block_time_total * 100 == 300) &&
      !(row.row_perc == row.row_time / wb.block_time_total * 100)
    | none => false
  | none => false

/-- Counterexample to C5 as stated: a percentage column entry of
`dump_profile` differs from the value computed relative to the baseline
total time of the baseline block. -/
theorem perc_not_baseline_relative : c5_check = true := by
  with_unfolding_all decide

/-- Witness for the amended C5 at the concrete report of `c5_trace`. -/
theorem perc_denominators_witness :
    ∃ wm, find_baseline c5_state.blocks = some wm ∧
      (∀ row ∈ c5_report.report_table1,
        row.row_perc = PERC c5_report.report_time_self_total row.row_time) ∧
      (∀ row ∈ c5_report.report_table2,
        row.row_perc = PERC c5_report.report_time_self_total row.row_time) ∧
      (∀ row ∈ c5_report.report_rollup,
        row.roll_perc = PERC c5_report.report_time_self_total row.roll_time ∧
        row.roll_perc_main = row.roll_time / wm.block_time_total * 100) ∧
      (∀ row ∈ c5_report.report_summaries,
        row.sum_perc_total = PERC c5_report.report_time_self_total row.sum_time_total ∧
        row.sum_perc_self = PERC c5_report.report_time_self_total row.sum_time_self ∧
        row.sum_perc_child = PERC c5_report.report_time_self_total row.sum_child_time) :=
  perc_denominators c5_state 0 c5_report (by with_unfolding_all rfl)

/-- Amended C6: the checked capacity bounds are fatal — a full thread slot
table makes `return_pid` abort with the thread diagnostic, a full block
table makes `new_block` abort with the block diagnostic, and a full call
stack makes `begin_block` abort with the stack diagnostic. (Recursing a
call site past RECURSE_MAX, by contrast, is not checked anywhere: see the
accompanying counterexample.) -/
theorem capacity_traps :
    (∀ (tids : Nat → Int) (tid : Int),
        (∀ i, i < THREAD_MAX → tids i ≠ tid ∧ tids i ≠ PROFILE_INVALID) →
        return_pid tids tid = .error .threadMax) ∧
      (∀ (st : PState) (site : Nat) (name : List Char) (inv : Int),
        BLOCK_MAX ≤ st.blocks.length →
        new_block st site name inv = .error .blockMax) ∧
      (∀ (st : PState) (bid : Nat) (o : EnterObs),
        STACK_MAX ≤ st.stack.length →
        begin_block st bid o = .error .stackMax) := by
  refine ⟨?_, ?_, ?_⟩
  · intro tids tid hall
    unfold return_pid
    cases hf : (List.range THREAD_MAX).find? (fun i => tids i = tid) with
    | some i =>
      exfalso
      have hp := List.find?_some hf
      have hi : i < THREAD_MAX := List.mem_range.mp (List.mem_of_find?_eq_some hf)
      exact (hall i hi).1 (by simpa using hp)
    | none =>
      cases hf2 : (List.range THREAD_MAX).find? (fun i => tids i = PROFILE_INVALID) with
      | some i =>
        exfalso
        have hp := List.find?_some hf2
        have hi : i < THREAD_MAX := List.mem_range.mp (List.mem_of_find?_eq_some hf2)
        exact (hall i hi).2 (by simpa using hp)
      | none => rfl
  · intro st site name inv hlen
    unfold new_block
    rw [if_pos hlen]
  · intro st bid o hlen
    obtain ⟨stk, blks, sts, cb, ce, tt⟩ := st
    unfold begin_block
    cases stk with
    | nil => simp [STACK_MAX] at hlen
    | cons prev rest =>
      dsimp
      rw [if_pos (by simpa using hlen)]

/-- A zeroed open frame, used to build a full call stack. -/
def full_frame : Frame :=
  { stack_id := 0, stack_time_self := 0, stack_time_total := 0, stack_count_begin := 0 }

/-- A state whose call stack is at STACK_MAX. -/
def st_full_stack : PState :=
  { init_profile with stack := List.replicate STACK_MAX full_frame }

/-- A state whose block table is at BLOCK_MAX. -/
def st_full_blocks : PState :=
  { init_profile with blocks := List.replicate BLOCK_MAX b_main }

/-- Witness for the amended C6 at concrete full tables. -/
theorem capacity_traps_witness :
    return_pid (fun _ => 5) 7 = .error .threadMax ∧
      new_block st_full_blocks 0 main_name 2 = .error .blockMax ∧
      begin_block st_full_stack 0 z_enter = .error .stackMax :=
  ⟨capacity_traps.1 (fun _ => 5) 7
     (fun i hi => ⟨fun hx => by simp at hx, fun hx => by simp [PROFILE_INVALID] at hx⟩),
   capacity_traps.2.1 st_full_blocks 0 main_name 2 (by with_unfolding_all decide),
   capacity_traps.2.2 st_full_stack 0 z_enter (by with_unfolding_all decide)⟩

/-- The name of the synthetic recursive block. -/
def r_name : List Char := "r".toList

/-- RECURSE_MAX nested BEGIN_BLOCK expansions of one call site. -/
def deep_trace : List Ev :=
  List.replicate RECURSE_MAX (.beginB 0 r_name z_enter)

/-- The evaluation refuting the recursion leg of C6: after RECURSE_MAX
nested entries of one call site the trace still completes without any
`PROFILE_BUG` diagnostic (the run returns `.ok`), while the recursion
counter of the call site stands at RECURSE_MAX + 1 — the expansions have
been indexing the RECURSE_MAX-sized block id array of the site out of bounds instead
of aborting. -/
def recursion_overflow_check : Bool :=
  match runTrace init_profile deep_trace with
  | .ok st => (st.sites 0).block_invocation == (RECURSE_MAX : Int) + 1
  | .error _ => false

set_option maxRecDepth 100000 in
/-- Counterexample to C6 as stated: recursing one call site past
RECURSE_MAX does not terminate the process with a diagnostic; the profiler
keeps running with the recursion counter beyond the bound. -/
theorem recursion_overflow_unchecked : recursion_overflow_check = true := by
  with_unfolding_all decide

/-- The recursion trace for C4: a `main` block enclosing one call site
entered recursively to depth 3 (each depth entered and exited exactly
once). -/
def c4_trace : List Ev :=
  [.beginB 0 main_name z_enter,
   .beginB 1 r_name z_enter, .beginB 1 r_name z_enter, .beginB 1 r_name z_enter,
   .endB z_exit, .endB z_exit, .endB z_exit, .endB z_exit]

/-- The state after running `c4_trace`. -/
def c4_state : PState :=
  match runTrace init_profile c4_trace with
  | .ok st => st
  | .error _ => init_profile

/-- The report dumped after running `c4_trace`. -/
def c4_report : Report :=
  match dump_profile c4_state 1 with
  | .ok r => r
  | .error _ => empty_report

/-- The evaluation of C4 at its failing input: the trace runs and dumps
without error; each recursion depth owns its own block with call count 1
(recorded invocation indices 2, 3, 4); but the depth-aggregated rollup
table of the report is empty — it aggregates only blocks whose recorded
invocation equals 1, and no block ever records invocation 1 — so no rollup
call count of k = 3 (or any rollup record at all) is reported. -/
def c4_check : Bool :=
  is_ok (runTrace init_profile c4_trace) &&
  ((blockAt c4_state 1).block_name == r_name) &&
  ((blockAt c4_state 1).block_invocation == 2) &&
  ((blockAt c4_state 1).block_calls == 1) &&
  ((blockAt c4_state 2).block_invocation == 3) &&
  ((blockAt c4_state 2).block_calls == 1) &&
  ((blockAt c4_state 3).block_invocation == 4) &&
  ((blockAt c4_state 3).block_calls == 1) &&
  (c4_report.report_nblock == 4) &&
  is_ok (dump_profile c4_state 1) &&
  (c4_report.report_rollup == ([] : List RollRow))

set_option maxRecDepth 100000 in
/-- C4 at its failing input: every recursion depth has its own block with
call count 1, but the depth-aggregated rollup of the report is empty instead
of recording call count 3 for the name of the call site. -/
theorem recursion_rollup_empty : c4_check = true := by
  with_unfolding_all decide

/-- The name of the parent block in the nesting scenario. -/
def p_name : List Char := "p".toList

/-- The name of the child block in the nesting scenario. -/
def c_name : List Char := "c".toList

/-- Claim C3: when a parent block enters and exits exactly one child block
and performs no other work (whatever the clock observations), the parent
block has recorded total time equal to its recorded self time plus the child
recorded total time, and the parent-call count of the child block for
the parent equals 1. -/
theorem nesting_correct (oP oC : EnterObs) (xC xP : ExitObs) (st : PState)
    (hr : runTrace init_profile
      [.beginB 0 p_name oP, .beginB 1 c_name oC, .endB xC, .endB xP] = .ok st) :
    (blockAt st 0).block_time_total =
        (blockAt st 0).block_time_self_total + (blockAt st 1).block_time_total ∧
      ((blockAt st 1).block_parent 0).parent_calls = 1 := by
  norm_num [runTrace, stepEv, BEGIN_BLOCK, END_BLOCK, begin_block, end_block,
    new_block, mangle, mangle_loop, mangle_loop_go, rightmost_target, is_mangle_target,
    init_block, init_profile, list_modify, nfun_set, fun_set, clear_parent, clear_child,
    blockAt, List.getD, List.get?, Option.getD,
    p_name, c_name, PROFILE_INVALID, RECURSE_MAX, NAME_MAX, MANGLE_MAX, BLOCK_MAX,
    STACK_MAX] at hr
  subst hr
  constructor
  · norm_num [blockAt, List.getD, List.get?, Option.getD, nfun_set, fun_set, list_modify]
    ring
  · norm_num [blockAt, List.getD, List.get?, Option.getD, nfun_set, fun_set, list_modify,
      clear_parent]

/-- The state of the nesting scenario run at all-zero clock observations. -/
def c3_state : PState :=
  match runTrace init_profile
      [.beginB 0 p_name z_enter, .beginB 1 c_name z_enter, .endB z_exit, .endB z_exit] with
  | .ok st => st
  | .error _ => init_profile

/-- Witness for C3 at all-zero clock observations. -/
theorem nesting_correct_witness :
    ∃ st, runTrace init_profile
        [.beginB 0 p_name z_enter, .beginB 1 c_name z_enter, .endB z_exit, .endB z_exit] =
          .ok st ∧
      ((blockAt st 0).block_time_total =
          (blockAt st 0).block_time_self_total + (blockAt st 1).block_time_total ∧
        ((blockAt st 1).block_parent 0).parent_calls = 1) :=
  ⟨c3_state, by with_unfolding_all rfl,
   nesting_correct z_enter z_enter z_exit z_exit c3_state (by with_unfolding_all rfl)⟩
